import Mathlib

/-!
# Verification of the go-snipeit client library

A shallow embedding of the request/response pipeline of the
`euracresearch/go-snipeit` Snipe-IT API client, together with proofs about
its behaviour.  The embedding follows the most recent revision of the
sources (the revision whose `Do` short-circuits on non-2xx statuses and
whose `Timestamp.UnmarshalJSON` tolerates an empty `datetime`); where two
historical revisions of a function disagree, the newer one is embedded, as
its behaviour is the one the design documentation describes.

Modelling conventions:
* Go `string` values are Lean `String`s; byte-level operations are done on
  `List Char` (the sources only ever manipulate ASCII here).
* JSON documents are represented by the abstract syntax tree `JsonValue`;
  textual JSON parsing by `encoding/json` is outside the model, JSON
  numbers are modelled as integers (all numbers appearing in this API are
  integral).
* Machine integers (`int`, `int64`) are modelled as `Int`; none of the
  embedded code paths can overflow 64 bits.
* Functions that can fail return `Except` or `Option` values.
-/

namespace Snipeit

/-- Abstract syntax of a JSON document, the decoding input of
`encoding/json` as used by the library. -/
inductive JsonValue where
  | null
  | bool (b : Bool)
  | num (n : Int)
  | str (s : String)
  | arr (elems : List JsonValue)
  | obj (members : List (String × JsonValue))
deriving Repr, BEq

/-- A Go `time.Time` as produced by `time.Parse` with a zoneless layout:
a calendar date-time, implicitly in UTC. -/
structure DateTime where
  year : Int
  month : Int
  day : Int
  hour : Int
  minute : Int
  second : Int
  nsec : Int
deriving Repr, DecidableEq

/-- The zero `time.Time`: January 1, year 1, 00:00:00 UTC. -/
def timeZero : DateTime := ⟨1, 1, 1, 0, 0, 0, 0⟩

/-! ## Go `time.Parse` for the layout `"2006-01-02 15:04:05"`

A faithful model of `time.Parse(format, value)` from Go's `time` package,
specialised to the one fixed layout the library uses
(`const format = "2006-01-02 15:04:05"`). -/

/-- The layout constant from `Timestamp.UnmarshalJSON`. -/
def timestampLayout : String := "2006-01-02 15:04:05"

def isDigitChar (c : Char) : Bool := '0' ≤ c ∧ c ≤ '9'

/-- Numeric value of an ASCII digit. -/
def digitVal (c : Char) : Int := ((c.toNat - 48 : Nat) : Int)

/-- Go `time.getnum`: read a one- or two-digit number (`fixed = false`)
or an exactly-two-digit number (`fixed = true`). -/
def getnum (value : List Char) (fixed : Bool) : Option (Int × List Char) :=
  match value with
  | [] => none
  | c1 :: rest1 =>
    if isDigitChar c1 then
      match rest1 with
      | c2 :: rest2 =>
        if isDigitChar c2 then some (digitVal c1 * 10 + digitVal c2, rest2)
        else if fixed then none else some (digitVal c1, rest1)
      | [] => if fixed then none else some (digitVal c1, [])
    else none

/-- Go's `stdLongYear` ("2006") element: exactly four digits. -/
def getYear4 (value : List Char) : Option (Int × List Char) :=
  match value with
  | c1 :: c2 :: c3 :: c4 :: rest =>
    if isDigitChar c1 ∧ isDigitChar c2 ∧ isDigitChar c3 ∧ isDigitChar c4 then
      some (((digitVal c1 * 10 + digitVal c2) * 10 + digitVal c3) * 10 + digitVal c4, rest)
    else none
  | _ => none

/-- Go `time.isLeap`. -/
def isLeap (year : Int) : Bool := year % 4 = 0 ∧ (year % 100 ≠ 0 ∨ year % 400 = 0)

/-- Go `time.daysIn`. -/
def daysIn (month year : Int) : Int :=
  if month = 2 then (if isLeap year then 29 else 28)
  else if month = 4 ∨ month = 6 ∨ month = 9 ∨ month = 11 then 30
  else 31

def commaOrPeriod (c : Char) : Bool := c = '.' ∨ c = ','

/-- The leading ASCII-digit run of a character list. -/
def leadingDigits : List Char → List Char
  | [] => []
  | c :: rest => if isDigitChar c then c :: leadingDigits rest else []

def digitsVal (l : List Char) : Int := l.foldl (fun a c => a * 10 + digitVal c) 0

def pow10 : Nat → Int
  | 0 => 1
  | n + 1 => 10 * pow10 n

/-- Go `time.Parse`'s special case after the seconds element: an input
fractional second is accepted even though the layout has none
(`parseNanoseconds`; at most nine digits are significant, further digits
are skipped). -/
def readOptionalFrac (v : List Char) : Int × List Char :=
  match v with
  | c0 :: c1 :: _ =>
    if commaOrPeriod c0 ∧ isDigitChar c1 then
      let ds := leadingDigits (v.drop 1)
      let used := ds.take 9
      (digitsVal used * pow10 (9 - used.length), v.drop (ds.length + 1))
    else (0, v)
  | _ => (0, v)

/-- The error data carried by Go's `time.ParseError` for this layout:
either a layout element that failed to parse (with the input remaining at
that element), a range error, or trailing text. -/
inductive ParseError where
  | elem (layoutElem : String) (valueElem : String)
  | range (rangeErrString : String)
  | extraText (extra : String)
deriving Repr, DecidableEq

def hexDigitLower (n : Nat) : Char :=
  if n < 10 then Char.ofNat (48 + n) else Char.ofNat (87 + n)

/-- Go `time.quote`: wrap in double quotes, backslash-escaping `"` and
`\`, and hex-escaping the bytes of control or non-ASCII characters. -/
def goQuoteChar (c : Char) : List Char :=
  if c.toNat < 32 ∨ c.toNat ≥ 128 then
    (String.utf8EncodeChar c).foldr
      (fun b acc => '\\' :: 'x' :: hexDigitLower (b.toNat / 16) :: hexDigitLower (b.toNat % 16) :: acc) []
  else if c = '"' ∨ c = '\\' then ['\\', c]
  else [c]

def goQuote (s : String) : String := ⟨'"' :: ((s.data.map goQuoteChar).flatten ++ ['"'])⟩

/-- `time.ParseError.Error()` for the errors `goTimeParse` can produce
(`value` is the complete original input). -/
def parseErrorMessage (value : String) : ParseError → String
  | .elem layoutElem valueElem =>
      "parsing time " ++ goQuote value ++ " as " ++ goQuote timestampLayout ++
        ": cannot parse " ++ goQuote valueElem ++ " as " ++ goQuote layoutElem
  | .range rangeErrString =>
      "parsing time " ++ goQuote value ++ ": " ++ rangeErrString ++ " out of range"
  | .extraText extra =>
      "parsing time " ++ goQuote value ++ ": extra text: " ++ goQuote extra

/-- Read one non-space literal separator character of the layout
(`time.skip` on a prefix without spaces: exact match). -/
def expectLit (c : Char) (lit : String) (v : List Char) : Except ParseError (List Char) :=
  match v with
  | c' :: rest => if c' = c then .ok rest else .error (.elem lit ⟨v⟩)
  | [] => .error (.elem lit "")

/-- `time.skip` on the layout's single-space literal: runs of space
characters are treated as equivalent (`cutspace`), a non-space at the
front fails, and an exhausted value matches. -/
def expectSpace (v : List Char) : Except ParseError (List Char) :=
  match v with
  | [] => .ok []
  | ' ' :: _ => .ok (v.dropWhile (fun c => c = ' '))
  | _ :: _ => .error (.elem " " ⟨v⟩)

/-- Read a numeric layout element via `getnum`. -/
def readNum (fixed : Bool) (layoutElem : String) (v : List Char) :
    Except ParseError (Int × List Char) :=
  match getnum v fixed with
  | some r => .ok r
  | none => .error (.elem layoutElem ⟨v⟩)

/-- Go `time.Parse(timestampLayout, s)`.  Layout elements are processed in
sequence; the hour element `15` accepts one or two digits while year,
month, day, minute and second are fixed-width; the space separator
matches any run of spaces (`skip`/`cutspace`); hour/minute/second are
range-checked as they are read, trailing input is rejected, and month and
day are range-checked at the end, exactly as in Go's `Parse`. -/
def goTimeParse (s : String) : Except ParseError DateTime := do
  let v := s.data
  let (year, v) ← match getYear4 v with
    | some r => Except.ok r
    | none => Except.error (ParseError.elem "2006" ⟨v⟩)
  let v ← expectLit '-' "-" v
  let (month, v) ← readNum true "01" v
  let v ← expectLit '-' "-" v
  let (day, v) ← readNum true "02" v
  let v ← expectSpace v
  let (hour, v) ← readNum false "15" v
  if hour < 0 ∨ 24 ≤ hour then throw (.range "hour") else
  do
  let v ← expectLit ':' ":" v
  let (minute, v) ← readNum true "04" v
  if minute < 0 ∨ 60 ≤ minute then throw (.range "minute") else
  do
  let v ← expectLit ':' ":" v
  let (second, v) ← readNum true "05" v
  if second < 0 ∨ 60 ≤ second then throw (.range "second") else
  do
  let (nsec, v) := readOptionalFrac v
  if v ≠ [] then throw (.extraText ⟨v⟩) else
  if month < 1 ∨ 12 < month then throw (.range "month") else
  if day < 1 ∨ daysIn month year < day then throw (.range "day") else
  pure ⟨year, month, day, hour, minute, second, nsec⟩

/-! ## The `Timestamp` codec (`src/unnamed/part_002`, lines 137-163) -/

/-- The wire shape of a Snipe-IT timestamp (`apiTimestamp`). -/
structure ApiTimestamp where
  Datetime : String
  Format : String
deriving Repr, DecidableEq

/-- `Timestamp` wraps a `time.Time`. -/
structure Timestamp where
  Time : DateTime
deriving Repr, DecidableEq

def timestampZero : Timestamp := ⟨timeZero⟩

/-- `Timestamp.UnmarshalJSON` after the inner `json.Unmarshal` has
produced the `apiTimestamp` record `d`; `ts` is the receiver's prior
value (always the zero value during a fresh decode). -/
def Timestamp.unmarshalFromWire (ts : Timestamp) (d : ApiTimestamp) : Except String Timestamp :=
  if d.Datetime = "" then .ok ts
  else
    match goTimeParse d.Datetime with
    | .error e =>
        .error ("go-snipeit: can not parse api timestamp: " ++ parseErrorMessage d.Datetime e)
    | .ok t => .ok ⟨t⟩

/-- ASCII lower-casing, as used by `encoding/json`'s case-insensitive
field matching. -/
def toLowerAscii (c : Char) : Char :=
  if 'A' ≤ c ∧ c ≤ 'Z' then Char.ofNat (c.toNat + 32) else c

def eqFold (a b : String) : Bool := a.data.map toLowerAscii = b.data.map toLowerAscii

/-- Look up a JSON object key the way `encoding/json` resolves it for a
struct field tag: case-insensitive match, later duplicates win. -/
def jsonLookup (members : List (String × JsonValue)) (key : String) : Option JsonValue :=
  (members.filter (fun m => eqFold m.fst key)).getLast?.map Prod.snd

/-- Decode a JSON value into a `string` struct field positioned at its
zero value: absent keys and JSON `null` leave the field untouched. -/
def getStringField (members : List (String × JsonValue)) (key : String) : Except String String :=
  match jsonLookup members key with
  | none => .ok ""
  | some .null => .ok ""
  | some (.str s) => .ok s
  | some _ => .error ("json: cannot unmarshal value into Go struct field " ++ key ++ " of type string")

/-- `json.Unmarshal(b, d)` for `d *apiTimestamp`. -/
def unmarshalApiTimestamp (j : JsonValue) : Except String ApiTimestamp :=
  match j with
  | .null => .ok ⟨"", ""⟩
  | .obj members => do
      let dt ← getStringField members "datetime"
      let f ← getStringField members "formatted"
      pure ⟨dt, f⟩
  | _ => .error "json: cannot unmarshal value into Go value of type snipeit.apiTimestamp"

/-- `Timestamp.UnmarshalJSON` (src/unnamed/part_002, lines 148-163) on
the JSON value `j`. -/
def Timestamp.UnmarshalJSON (ts : Timestamp) (j : JsonValue) : Except String Timestamp :=
  match unmarshalApiTimestamp j with
  | .error e => .error e
  | .ok d => ts.unmarshalFromWire d

/-! ## The spec's reading of the layout

The design documentation states that a non-empty `datetime` "MUST match
the fixed layout `YYYY-MM-DD HH:MM:SS`".  `specLayoutParse` follows the
spec's words: every field is fixed-width (`HH` is exactly two digits) and
the fields must form a valid calendar date-time.  It exists to be compared
against the behaviour of `goTimeParse`, which is embedded from the
source. -/
def specLayoutParse (s : String) : Option DateTime := do
  let v := s.data
  let (year, v) ← getYear4 v
  let v ← (expectLit '-' "-" v).toOption
  let (month, v) ← getnum v true
  let v ← (expectLit '-' "-" v).toOption
  let (day, v) ← getnum v true
  let v ← (expectLit ' ' " " v).toOption
  let (hour, v) ← getnum v true
  let v ← (expectLit ':' ":" v).toOption
  let (minute, v) ← getnum v true
  let v ← (expectLit ':' ":" v).toOption
  let (second, v) ← getnum v true
  if v = [] ∧ 1 ≤ month ∧ month ≤ 12 ∧ 1 ≤ day ∧ day ≤ daysIn month year ∧
      hour ≤ 23 ∧ minute ≤ 59 ∧ second ≤ 59 then
    some ⟨year, month, day, hour, minute, second, 0⟩
  else none

/-- A string matches the spec's `YYYY-MM-DD HH:MM:SS` layout. -/
def matchesSpecLayout (s : String) : Bool := (specLayoutParse s).isSome

/-- Printable-ASCII characters that Go's `quote` passes through
verbatim. -/
def plainAscii (c : Char) : Prop :=
  32 ≤ c.toNat ∧ c.toNat < 128 ∧ c ≠ '"' ∧ c ≠ '\\'

instance (c : Char) : Decidable (plainAscii c) := by unfold plainAscii; infer_instance

/-- Contiguous-substring test on character lists. -/
def listInfix (needle haystack : List Char) : Bool :=
  match haystack with
  | [] => needle.isEmpty
  | _ :: t => needle.isPrefixOf haystack || listInfix needle t

/-! ## The response dispatcher `Do` (`src/unnamed/part_002`, lines 85-113)

`Do` executes a request and decodes the body into a caller-supplied
target.  The transport call `c.client.Do(req)` is modelled by its
outcome, an `Except` value; the response body stream is modelled by the
`Option JsonValue` it would decode to (`none` is an empty body, for which
`encoding/json` reports `io.EOF`).  The result record tracks, besides the
returned pair, whether the body stream was closed before returning and
whether a JSON decode of the body was attempted. -/

/-- An `*http.Response` as far as `Do` inspects it. -/
structure Response where
  StatusCode : Int
  Body : Option JsonValue
deriving Repr

/-- The I/O outcome of `io.Copy(w, resp.Body)`: bytes written, and
whether the copy failed midway.  `Do` discards both return values. -/
inductive CopyOutcome where
  | ok (written : Nat)
  | fail (err : String) (written : Nat)
deriving Repr, DecidableEq

def CopyOutcome.written : CopyOutcome → Nat
  | .ok n => n
  | .fail _ n => n

/-- The outcome of `json.NewDecoder(resp.Body).Decode(v)`. -/
inductive DecodeOutcome (α : Type) where
  | ok (a : α)
  | eof
  | fail (msg : String)

/-- `encoding/json` decoding of a body stream: an empty body yields
`io.EOF`, otherwise the decoder `dec` for the target's type runs on the
body's JSON value. -/
def jsonDecodeInto {α : Type} (dec : JsonValue → Except String α) :
    Option JsonValue → DecodeOutcome α
  | Option.none => .eof
  | some j =>
    match dec j with
    | .ok a => .ok a
    | .error e => .fail e

/-- The decode target `v interface{}` of `Do`: nil, an `io.Writer`, or a
pointer to a typed record (its current value together with the decode
behaviour `encoding/json` gives its type). -/
inductive Target (α : Type) where
  | none
  | writer (co : CopyOutcome)
  | typed (init : α) (dec : Option JsonValue → DecodeOutcome α)

/-- The value held by a typed target before `Do` runs. -/
def Target.value {α : Type} : Target α → Option α
  | .typed init _ => some init
  | _ => Option.none

/-- Everything observable about one execution of `Do`: the returned
`(*http.Response, error)` pair, the typed target's final value, and the
body-stream effects. -/
structure DoResult (α : Type) where
  resp : Option Response
  error : Option String
  target : Option α
  bodyClosed : Bool
  decodeAttempted : Bool
  sinkWritten : Option Nat

/-- `func (c *Client) Do(req *http.Request, v interface{})` from
`src/unnamed/part_002`: a transport failure is returned with no response;
a status outside [200, 299] returns the response, a nil error, and an
untouched body (the `defer resp.Body.Close()` is only registered after
this check); otherwise the body is closed on return, an `io.Writer`
target receives the raw body with the copy's outcome discarded, and any
other non-nil target gets a JSON decode with `io.EOF` ignored. -/
def Do {α : Type} (transport : Except String Response) (v : Target α) : DoResult α :=
  match transport with
  | .error e =>
      { resp := Option.none, error := some e, target := v.value,
        bodyClosed := false, decodeAttempted := false, sinkWritten := Option.none }
  | .ok resp =>
    if resp.StatusCode < 200 ∨ 299 < resp.StatusCode then
      { resp := some resp, error := Option.none, target := v.value,
        bodyClosed := false, decodeAttempted := false, sinkWritten := Option.none }
    else
      match v with
      | .none =>
          { resp := some resp, error := Option.none, target := Option.none,
            bodyClosed := true, decodeAttempted := false, sinkWritten := Option.none }
      | .writer co =>
          { resp := some resp, error := Option.none, target := Option.none,
            bodyClosed := true, decodeAttempted := false, sinkWritten := some co.written }
      | .typed init dec =>
          match dec resp.Body with
          | .ok a =>
              { resp := some resp, error := Option.none, target := some a,
                bodyClosed := true, decodeAttempted := true, sinkWritten := Option.none }
          | .eof =>
              { resp := some resp, error := Option.none, target := some init,
                bodyClosed := true, decodeAttempted := true, sinkWritten := Option.none }
          | .fail m =>
              { resp := some resp, error := some m, target := some init,
                bodyClosed := true, decodeAttempted := true, sinkWritten := Option.none }

/-! ## The query encoder (`Client.AddOptions` with `HardwareOptions`)

`AddOptions` renders an options record into the query string of a
relative path via `github.com/google/go-querystring/query.Values`
followed by `url.Values.Encode`. -/

/-- `HardwareOptions` (src/snipeit.go lines 223-237): the `url`-tagged
filter fields, every one carrying `omitempty`. -/
structure HardwareOptions where
  Limit : Int := 0
  Offset : Int := 0
  Search : String := ""
  OrderNumber : String := ""
  Sort' : String := ""
  Order : String := ""
  ModelID : Int := 0
  CategoryID : Int := 0
  ManufacturerID : Int := 0
  CompanyID : Int := 0
  LocationID : Int := 0
  Status : String := ""
  StatusID : String := ""
deriving Repr, DecidableEq

/-- One `url`-tagged `int` field with `omitempty`: the zero value is
omitted, otherwise the fixed tag key maps to the decimal rendering. -/
def urlFieldInt (key : String) (v : Int) : List (String × String) :=
  if v = 0 then [] else [(key, toString v)]

/-- One `url`-tagged `string` field with `omitempty`. -/
def urlFieldString (key : String) (v : String) : List (String × String) :=
  if v = "" then [] else [(key, v)]

/-- `query.Values(opt)` for `*HardwareOptions`: the tagged fields in
declaration order, zero-valued fields omitted. -/
def HardwareOptions.values (o : HardwareOptions) : List (String × String) :=
  urlFieldInt "limit" o.Limit ++ urlFieldInt "offset" o.Offset ++
  urlFieldString "search" o.Search ++ urlFieldString "order_number" o.OrderNumber ++
  urlFieldString "sort" o.Sort' ++ urlFieldString "order" o.Order ++
  urlFieldInt "model_id" o.ModelID ++ urlFieldInt "category_id" o.CategoryID ++
  urlFieldInt "manufacturer_id" o.ManufacturerID ++ urlFieldInt "company_id" o.CompanyID ++
  urlFieldInt "location_id" o.LocationID ++ urlFieldString "status" o.Status ++
  urlFieldString "status_id" o.StatusID

/-- The key of each query parameter an options record produces. -/
def queryKeys (o : HardwareOptions) : List String := o.values.map Prod.fst

def hexDigitUpper (n : Nat) : Char :=
  if n < 10 then Char.ofNat (48 + n) else Char.ofNat (55 + n)

/-- `url.QueryEscape` on one byte: alphanumerics and `-_.~` pass, space
becomes `+`, anything else is percent-encoded with uppercase hex. -/
def queryEscapeByte (b : Nat) : List Char :=
  if (97 ≤ b ∧ b ≤ 122) ∨ (65 ≤ b ∧ b ≤ 90) ∨ (48 ≤ b ∧ b ≤ 57) ∨
      b = 45 ∨ b = 95 ∨ b = 46 ∨ b = 126 then [Char.ofNat b]
  else if b = 32 then ['+']
  else ['%', hexDigitUpper (b / 16), hexDigitUpper (b % 16)]

/-- `url.QueryEscape`, byte-wise over the UTF-8 encoding. -/
def queryEscape (s : String) : String :=
  ⟨(((s.data.map (fun c => (String.utf8EncodeChar c).map (fun b => b.toNat))).flatten).map
      queryEscapeByte).flatten⟩

def insertSortedByKey (p : String × String) :
    List (String × String) → List (String × String)
  | [] => [p]
  | q :: rest => if p.1 ≤ q.1 then p :: q :: rest else q :: insertSortedByKey p rest

/-- `url.Values.Encode` iterates keys in sorted order; with the distinct
keys `query.Values` produces, that is a stable sort of the pair list. -/
def sortByKey : List (String × String) → List (String × String)
  | [] => []
  | p :: rest => insertSortedByKey p (sortByKey rest)

/-- `url.Values.Encode`: sorted `key=QueryEscape(value)` pairs joined
with `&` (the keys are escaped too). -/
def urlValuesEncode (l : List (String × String)) : String :=
  String.intercalate "&" ((sortByKey l).map fun p => queryEscape p.1 ++ "=" ++ queryEscape p.2)

/-- Characters of `l` before the first occurrence of `c`. -/
def takeUntilChar (c : Char) : List Char → List Char
  | [] => []
  | x :: t => if x = c then [] else x :: takeUntilChar c t

/-- Characters of `l` after the first occurrence of `c` (all of them if
`c` does not occur). -/
def afterChar (c : Char) : List Char → List Char
  | [] => []
  | x :: t => if x = c then t else afterChar c t

def hexVal (c : Char) : Nat :=
  if '0' ≤ c ∧ c ≤ '9' then c.toNat - 48
  else if 'a' ≤ c ∧ c ≤ 'f' then c.toNat - 87
  else if 'A' ≤ c ∧ c ≤ 'F' then c.toNat - 55
  else 0

def isHexDigit (c : Char) : Bool :=
  ('0' ≤ c ∧ c ≤ '9') ∨ ('a' ≤ c ∧ c ≤ 'f') ∨ ('A' ≤ c ∧ c ≤ 'F')

/-- `url.shouldEscape(c, encodePath)`: alphanumerics, `-_.~` and the
sub-delimiters `$&+,/:;=@` pass through in a path, everything else
(notably `?` and the space) is percent-encoded. -/
def shouldEscapePathByte (b : Nat) : Bool :=
  if (97 ≤ b ∧ b ≤ 122) ∨ (65 ≤ b ∧ b ≤ 90) ∨ (48 ≤ b ∧ b ≤ 57) then false
  else if b = 45 ∨ b = 95 ∨ b = 46 ∨ b = 126 then false
  else if b = 36 ∨ b = 38 ∨ b = 43 ∨ b = 44 ∨ b = 47 ∨ b = 58 ∨ b = 59 ∨ b = 61 ∨
      b = 64 then false
  else true

/-- `url.unescape(s, encodePath)`: percent-decoding, failing on a
malformed escape exactly where `url.Parse` would fail. -/
def unescapePath : List Char → Except String (List Char)
  | [] => .ok []
  | '%' :: rest =>
    match rest with
    | h1 :: h2 :: rest' =>
      if isHexDigit h1 ∧ isHexDigit h2 then
        (unescapePath rest').map fun l => Char.ofNat (hexVal h1 * 16 + hexVal h2) :: l
      else .error "invalid URL escape"
    | _ => .error "invalid URL escape"
  | c :: rest => (unescapePath rest).map fun l => c :: l

/-- `url.escape(s, encodePath)`, byte-wise over the UTF-8 encoding. -/
def escapePath (p : List Char) : List Char :=
  ((p.map fun c =>
    ((String.utf8EncodeChar c).map fun b =>
      if shouldEscapePathByte b.toNat then
        ['%', hexDigitUpper (b.toNat / 16), hexDigitUpper (b.toNat % 16)]
      else [Char.ofNat b.toNat]).flatten).flatten)

/-- `url.validEncoded(s, encodePath)`: the reserved marks it tolerates
unescaped, plus every byte `shouldEscape` passes. -/
def validEncodedPathByte (b : Nat) : Bool :=
  if b = 33 ∨ b = 36 ∨ b = 38 ∨ b = 39 ∨ b = 40 ∨ b = 41 ∨ b = 42 ∨ b = 43 ∨ b = 44 ∨
      b = 59 ∨ b = 61 ∨ b = 58 ∨ b = 64 ∨ b = 91 ∨ b = 93 ∨ b = 37 then true
  else !(shouldEscapePathByte b)

def validEncodedPath (p : List Char) : Bool :=
  p.all fun c => validEncodedPathByte c.toNat

/-- `URL.EscapedPath()` after `url.Parse` set the path from the raw text
`pRaw` (so `path = unescape(pRaw)`): a raw text that is already a valid
encoding is preserved verbatim, anything else is re-escaped from the
decoded path. -/
def escapedPathOf (pRaw path : List Char) : List Char :=
  if validEncodedPath pRaw then pRaw else escapePath path

/-- `Client.AddOptions(s, opt)` (src/snipeit.go lines 113-131) for a
`*HardwareOptions` argument, mirroring Go's `(string, error)` return
pair.  `opt = none` models a nil pointer, which returns `s` unchanged
before any parsing.  Otherwise `s` is parsed as a relative URL reference
and re-serialised with the encoded options as its query: for the
scheme-less, fragment-less references the accessors build, `url.Parse`
splits `s` at its first `?`, percent-decodes the path (returning `s`
with the error when an escape is malformed, as `url.Parse` does), and
`URL.String()` re-encodes the path via `EscapedPath`. -/
def AddOptions (s : String) (opt : Option HardwareOptions) : String × Option String :=
  match opt with
  | Option.none => (s, Option.none)
  | some o =>
    let pRaw := takeUntilChar '?' s.data
    match unescapePath pRaw with
    | .error e => (s, some e)
    | .ok path =>
      let q := urlValuesEncode o.values
      let pOut : String := ⟨escapedPathOf pRaw path⟩
      (if q = "" then pOut else pOut ++ "?" ++ q, Option.none)

/-! ## The request builder's URL resolution (`Client.NewRequest`)

`NewRequest` resolves `strings.TrimPrefix(urlStr, "/")` against the
configured base endpoint with `c.BaseURL.Parse`, i.e. `url.Parse`
followed by `URL.ResolveReference`. -/

/-- `strings.TrimPrefix(s, "/")`: at most one leading slash removed. -/
def trimOneLeadingSlash (s : List Char) : List Char :=
  match s with
  | '/' :: rest => rest
  | _ => s

/-- `strings.Split(s, sep)` for a single-character separator. -/
def goSplit (sep : Char) : List Char → List (List Char)
  | [] => [[]]
  | c :: rest =>
    if c = sep then [] :: goSplit sep rest
    else
      match goSplit sep rest with
      | [] => [[c]]
      | seg :: segs => (c :: seg) :: segs

/-- `strings.Join(l, sep)` for a single-character separator. -/
def goJoin (sep : Char) : List (List Char) → List Char
  | [] => []
  | [x] => x
  | x :: xs => x ++ sep :: goJoin sep xs

/-- `strings.LastIndex(l, c)` for a single character. -/
def lastIndexOfChar (c : Char) : List Char → Option Nat
  | [] => Option.none
  | x :: t =>
    match lastIndexOfChar c t with
    | some i => some (i + 1)
    | Option.none => if x = c then some 0 else Option.none

/-- The `base[:strings.LastIndex(base, "/")+1]` step of
`net/url.resolvePath`'s merge. -/
def mergeBase (base : List Char) : List Char :=
  match lastIndexOfChar '/' base with
  | Option.none => []
  | some i => base.take (i + 1)

/-- `net/url.resolvePath(base, ref)`: merge the reference into the base
path and remove `.` and `..` segments, forcing a leading `/`. -/
def resolvePath (base ref : List Char) : List Char :=
  let full : List Char :=
    if ref = [] then base
    else if ref.head? = some '/' then ref
    else mergeBase base ++ ref
  if full = [] then []
  else
    let src := goSplit '/' full
    let dst := src.foldl
      (fun dst elem =>
        if elem = ['.'] then dst
        else if elem = ['.', '.'] then dst.dropLast
        else dst ++ [elem]) []
    let dst :=
      match src.getLast? with
      | some last => if last = ['.'] ∨ last = ['.', '.'] then dst ++ [[]] else dst
      | Option.none => dst
    '/' :: trimOneLeadingSlash (goJoin '/' dst)

/-- The parts of the resolved request URL that the claims observe. -/
structure ResolvedURL where
  Host : String
  Path : List Char
  RawQuery : List Char
deriving Repr, DecidableEq

/-- `c.BaseURL.Parse(strings.TrimPrefix(urlStr, "/"))` from
`Client.NewRequest` (src/snipeit.go lines 59-63), for the reference
grammar the accessors produce: an optional `//authority`, a path, and an
optional `?query` — no scheme (a reference whose first segment contains
`:` would parse as an absolute URL), no `#fragment`, and no
percent-escapes (`Path` is the decoded `URL.Path`, which coincides with
the raw text exactly when the reference is escape-free).  An
authority-form reference replaces the base's host and path; an absolute
or relative path is resolved against the base path by `resolvePath`; the
empty reference yields the base URL itself. -/
def NewRequestURL (baseHost : String) (basePath : List Char) (urlStr : String) : ResolvedURL :=
  let t := trimOneLeadingSlash urlStr.data
  if t.take 2 = ['/', '/'] then
    let rest := t.drop 2
    let beforeQ := takeUntilChar '?' rest
    let q := afterChar '?' rest
    let host := takeUntilChar '/' beforeQ
    let refPath := beforeQ.drop host.length
    { Host := ⟨host⟩, Path := resolvePath refPath [], RawQuery := q }
  else
    let p := takeUntilChar '?' t
    let q := afterChar '?' t
    if p = [] ∧ q = [] then { Host := baseHost, Path := basePath, RawQuery := [] }
    else { Host := baseHost, Path := resolvePath basePath p, RawQuery := q }

/-! ## Domain records and their `encoding/json` decoding

The records follow the current revision of the sources
(`src/unnamed/part_001` for `Hardware`, whose `Location` field is an
embedded `*Location` reference).  Anonymous Go structs get named Lean
counterparts.  The decoding helpers reproduce `encoding/json` on these
shapes: object keys resolve to fields case-insensitively (later
duplicates win), absent keys and JSON `null` leave a non-pointer field at
its zero value and a pointer field nil, and type mismatches are
errors. -/

/-- Decode a JSON value into an `int`/`int64` struct field. -/
def getIntField (members : List (String × JsonValue)) (key : String) : Except String Int :=
  match jsonLookup members key with
  | Option.none => .ok 0
  | some .null => .ok 0
  | some (.num n) => .ok n
  | some _ => .error ("json: cannot unmarshal value into Go struct field " ++ key ++ " of type int64")

/-- Decode a JSON value into a `bool` struct field. -/
def getBoolField (members : List (String × JsonValue)) (key : String) : Except String Bool :=
  match jsonLookup members key with
  | Option.none => .ok false
  | some .null => .ok false
  | some (.bool b) => .ok b
  | some _ => .error ("json: cannot unmarshal value into Go struct field " ++ key ++ " of type bool")

/-- Decode a JSON value into a `Timestamp` struct field; the custom
unmarshaler receives the raw value, JSON `null` included. -/
def getTimestampField (members : List (String × JsonValue)) (key : String) :
    Except String Timestamp :=
  match jsonLookup members key with
  | Option.none => .ok timestampZero
  | some v => Timestamp.UnmarshalJSON timestampZero v

/-- Decode a JSON value into an `interface{}` struct field (kept as the
raw JSON value; `nil` for absent or `null`). -/
def getInterfaceField (members : List (String × JsonValue)) (key : String) :
    Except String (Option JsonValue) :=
  match jsonLookup members key with
  | Option.none => .ok Option.none
  | some .null => .ok Option.none
  | some v => .ok (some v)

/-- Decode a JSON value into a `[]interface{}` struct field. -/
def getArrayField (members : List (String × JsonValue)) (key : String) :
    Except String (Option (List JsonValue)) :=
  match jsonLookup members key with
  | Option.none => .ok Option.none
  | some .null => .ok Option.none
  | some (.arr l) => .ok (some l)
  | some _ => .error ("json: cannot unmarshal value into Go struct field " ++ key ++ " of type []interface \x7b\x7d")

/-- Decode a JSON value into an embedded (non-pointer) struct field. -/
def getStructField {α : Type} (zero : α) (dec : JsonValue → Except String α)
    (members : List (String × JsonValue)) (key : String) : Except String α :=
  match jsonLookup members key with
  | Option.none => .ok zero
  | some .null => .ok zero
  | some v => dec v

/-- Decode a JSON value into a pointer-to-struct field. -/
def getPtrField {α : Type} (dec : JsonValue → Except String α)
    (members : List (String × JsonValue)) (key : String) : Except String (Option α) :=
  match jsonLookup members key with
  | Option.none => .ok Option.none
  | some .null => .ok Option.none
  | some v => (dec v).map some

/-- The recurring anonymous `struct { ID int64; Name string }` reference
shape. -/
structure IDName where
  ID : Int := 0
  Name : String := ""
deriving Repr, DecidableEq

def decodeIDName (j : JsonValue) : Except String IDName :=
  match j with
  | .obj m => do
    let i ← getIntField m "id"
    let n ← getStringField m "name"
    pure ⟨i, n⟩
  | _ => .error "json: cannot unmarshal value into Go value of type struct"

/-- `Hardware.StatusLabel`'s anonymous struct. -/
structure StatusLabelRef where
  ID : Int := 0
  Name : String := ""
  StatusMeta : String := ""
deriving Repr, DecidableEq

def decodeStatusLabelRef (j : JsonValue) : Except String StatusLabelRef :=
  match j with
  | .obj m => do
    let i ← getIntField m "id"
    let n ← getStringField m "name"
    let sm ← getStringField m "status_meta"
    pure ⟨i, n, sm⟩
  | _ => .error "json: cannot unmarshal value into Go value of type struct"

/-- `Hardware.AssignedTo`'s anonymous struct. -/
structure AssignedToRef where
  ID : Int := 0
  Username : String := ""
  Name : String := ""
  Firstname : String := ""
  Lastname : String := ""
  Emplyee : String := ""
  Type' : String := ""
deriving Repr, DecidableEq

def decodeAssignedToRef (j : JsonValue) : Except String AssignedToRef :=
  match j with
  | .obj m => do
    let i ← getIntField m "id"
    let u ← getStringField m "username"
    let n ← getStringField m "name"
    let fn ← getStringField m "first_name"
    let ln ← getStringField m "last_name"
    let em ← getStringField m "employee_number"
    let ty ← getStringField m "type"
    pure ⟨i, u, n, fn, ln, em, ty⟩
  | _ => .error "json: cannot unmarshal value into Go value of type struct"

/-- `Hardware.AvailableActions`'s anonymous struct. -/
structure AvailableActionsRef where
  Checkout : Bool := false
  Checkin : Bool := false
  Clone : Bool := false
  Restore : Bool := false
  Update : Bool := false
  Delete : Bool := false
deriving Repr, DecidableEq

def decodeAvailableActionsRef (j : JsonValue) : Except String AvailableActionsRef :=
  match j with
  | .obj m => do
    let co ← getBoolField m "checkout"
    let ci ← getBoolField m "checkin"
    let cl ← getBoolField m "clone"
    let re ← getBoolField m "restore"
    let up ← getBoolField m "update"
    let de ← getBoolField m "delete"
    pure ⟨co, ci, cl, re, up, de⟩
  | _ => .error "json: cannot unmarshal value into Go value of type struct"

/-- `Category.Actions`'s anonymous struct (tags `update`/`delete`). -/
structure CategoryActions where
  Update : Bool := false
  Delete : Bool := false
deriving Repr, DecidableEq

def decodeCategoryActions (j : JsonValue) : Except String CategoryActions :=
  match j with
  | .obj m => do
    let up ← getBoolField m "update"
    let de ← getBoolField m "delete"
    pure ⟨up, de⟩
  | _ => .error "json: cannot unmarshal value into Go value of type struct"

/-- `Category` (src/locations.go companion file `categories.go`). -/
structure Category where
  ID : Int := 0
  Name : String := ""
  Image : String := ""
  CategoryType : String := ""
  Eula : Bool := false
  CheckinEmail : Bool := false
  RequireAcceptance : Bool := false
  AssetsCount : Int := 0
  AccessoriesCount : Int := 0
  ConsumablesCount : Int := 0
  ComponentsCount : Int := 0
  LicensesCount : Int := 0
  CreatedAt : Timestamp := timestampZero
  UpdatedAt : Timestamp := timestampZero
  Actions : CategoryActions := {}
deriving Repr, DecidableEq

def decodeCategory (j : JsonValue) : Except String Category :=
  match j with
  | .obj m => do
    let i ← getIntField m "id"
    let n ← getStringField m "name"
    let im ← getStringField m "image"
    let ct ← getStringField m "category_type"
    let eu ← getBoolField m "eula"
    let ce ← getBoolField m "checkin_email"
    let ra ← getBoolField m "require_acceptance"
    let ac ← getIntField m "assets_count"
    let acc ← getIntField m "accessories_count"
    let cc ← getIntField m "consumables_count"
    let coc ← getIntField m "components_count"
    let lc ← getIntField m "licenses_count"
    let ca ← getTimestampField m "created_at"
    let ua ← getTimestampField m "updated_at"
    let act ← getStructField {} decodeCategoryActions m "available_actions"
    pure ⟨i, n, im, ct, eu, ce, ra, ac, acc, cc, coc, lc, ca, ua, act⟩
  | _ => .error "json: cannot unmarshal value into Go value of type snipeit.Category"

/-- `Location.Actions`'s anonymous struct (no json tags, so the field
names themselves are the keys, matched case-insensitively). -/
structure LocationActions where
  Update : Bool := false
  Delete : Bool := false
deriving Repr, DecidableEq

def decodeLocationActions (j : JsonValue) : Except String LocationActions :=
  match j with
  | .obj m => do
    let up ← getBoolField m "Update"
    let de ← getBoolField m "Delete"
    pure ⟨up, de⟩
  | _ => .error "json: cannot unmarshal value into Go value of type struct"

/-- `Location` (src/locations.go / src/snipeit.go; the two revisions
agree on this shape).  It is recursive through `Children []Location`,
hence an inductive rather than a structure. -/
inductive Location where
  | mk (ID : Int) (Name : String) (Image : String) (Address : String) (Address2 : String)
      (City : String) (State : String) (Country : String) (Zip : String)
      (AssetsAssigned : Int) (Assets : Int) (Users : Int) (Currency : String)
      (CreatedAt : Timestamp) (UpdatedAt : Timestamp) (Parent : IDName) (Manager : String)
      (Children : List Location) (Actions : LocationActions)

def Location.ID : Location → Int
  | .mk i _ _ _ _ _ _ _ _ _ _ _ _ _ _ _ _ _ _ => i

def Location.Name : Location → String
  | .mk _ n _ _ _ _ _ _ _ _ _ _ _ _ _ _ _ _ _ => n

def Location.Children : Location → List Location
  | .mk _ _ _ _ _ _ _ _ _ _ _ _ _ _ _ _ _ c _ => c

/-- The zero `Location` value. -/
def locationZero : Location :=
  .mk 0 "" "" "" "" "" "" "" "" 0 0 0 "" timestampZero timestampZero {} "" [] {}

/-- Decoding `Location` needs recursion through `children`; `fuel` bounds
the recursion depth (any fuel larger than the document's nesting depth is
exact). -/
def decodeLocation : Nat → JsonValue → Except String Location
  | 0, _ => .error "go-snipeit model: location nesting deeper than fuel"
  | _ + 1, .null => .ok locationZero
  | fuel + 1, .obj m => do
    let i ← getIntField m "id"
    let n ← getStringField m "name"
    let im ← getStringField m "image"
    let ad ← getStringField m "address"
    let ad2 ← getStringField m "address2"
    let ci ← getStringField m "city"
    let st ← getStringField m "state"
    let co ← getStringField m "country"
    let zi ← getStringField m "zip"
    let aa ← getIntField m "assigned_assets_count"
    let asc ← getIntField m "assets_count"
    let us ← getIntField m "users_count"
    let cu ← getStringField m "currency"
    let ca ← getTimestampField m "created_at"
    let ua ← getTimestampField m "updated_at"
    let pa ← getStructField {} decodeIDName m "parent"
    let ma ← getStringField m "manager"
    let ch ← match jsonLookup m "children" with
      | Option.none => pure []
      | some .null => pure []
      | some (.arr elems) => elems.mapM (decodeLocation fuel)
      | some _ => throw "json: cannot unmarshal value into Go value of type []snipeit.Location"
    let act ← getStructField {} decodeLocationActions m "available_actions"
    pure (.mk i n im ad ad2 ci st co zi aa asc us cu ca ua pa ma ch act)
  | _ + 1, _ => .error "json: cannot unmarshal value into Go value of type snipeit.Location"

/-- `Hardware` (src/unnamed/part_001 lines 43-101: the revision whose
`Location` is an embedded `*Location` reference). -/
structure Hardware where
  ID : Int := 0
  Name : String := ""
  AssetTag : String := ""
  Serial : String := ""
  Model : IDName := {}
  ModelNumber : String := ""
  StatusLabel : StatusLabelRef := {}
  Category : Option Category := Option.none
  Manufacturer : IDName := {}
  Supplier : IDName := {}
  Notes : String := ""
  OrderNumber : String := ""
  Company : String := ""
  Location : Option Snipeit.Location := Option.none
  RtdLocation : Option Snipeit.Location := Option.none
  Image : String := ""
  AssignedTo : AssignedToRef := {}
  WarrantyMonths : Option JsonValue := Option.none
  WarrantyExpires : Option JsonValue := Option.none
  CreatedAt : Timestamp := timestampZero
  UpdatedAt : Timestamp := timestampZero
  DeletedAt : Timestamp := timestampZero
  PurchaseDate : Timestamp := timestampZero
  LastCheckout : Timestamp := timestampZero
  ExpectedCheckin : Timestamp := timestampZero
  PurchaseCost : String := ""
  UserCanCheckout : Bool := false
  CustomFields : Option (List JsonValue) := Option.none
  AvailableActions : AvailableActionsRef := {}

def decodeHardware (fuel : Nat) (j : JsonValue) : Except String Hardware :=
  match j with
  | .obj m => do
    let i ← getIntField m "id"
    let n ← getStringField m "name"
    let at' ← getStringField m "asset_tag"
    let se ← getStringField m "serial"
    let mo ← getStructField {} decodeIDName m "model"
    let mn ← getStringField m "model_number"
    let sl ← getStructField {} decodeStatusLabelRef m "status_label"
    let cat ← getPtrField decodeCategory m "category"
    let ma ← getStructField {} decodeIDName m "manufacturer"
    let su ← getStructField {} decodeIDName m "supplier"
    let no ← getStringField m "notes"
    let on' ← getStringField m "order_number"
    let comp ← getStringField m "company"
    let lo ← getPtrField (decodeLocation fuel) m "location"
    let rl ← getPtrField (decodeLocation fuel) m "rtd_location"
    let im ← getStringField m "image"
    let asg ← getStructField {} decodeAssignedToRef m "assigned_to"
    let wm ← getInterfaceField m "warranty_months"
    let we ← getInterfaceField m "warranty_expires"
    let ca ← getTimestampField m "created_at"
    let ua ← getTimestampField m "updated_at"
    let da ← getTimestampField m "deleted_at"
    let pd ← getTimestampField m "purchase_date"
    let lc ← getTimestampField m "last_checkout"
    let ec ← getTimestampField m "expected_checkin"
    let pc ← getStringField m "purchase_cost"
    let ucc ← getBoolField m "user_can_checkout"
    let cf ← getArrayField m "custom_fields"
    let aa ← getStructField {} decodeAvailableActionsRef m "available_actions"
    pure ⟨i, n, at', se, mo, mn, sl, cat, ma, su, no, on', comp, lo, rl, im, asg,
      wm, we, ca, ua, da, pd, lc, ec, pc, ucc, cf, aa⟩
  | _ => .error "json: cannot unmarshal value into Go value of type snipeit.Hardware"

/-- The accessors' anonymous list envelope
`struct { Total int64; Rows []*Hardware }` (no json tags: the field names
match `total`/`rows` case-insensitively). -/
structure HardwareListResponse where
  Total : Int := 0
  Rows : List (Option Hardware) := []

def decodeHardwareListResponse (fuel : Nat) (j : JsonValue) :
    Except String HardwareListResponse :=
  match j with
  | .obj m => do
    let tot ← getIntField m "Total"
    let rows ← match jsonLookup m "Rows" with
      | Option.none => pure []
      | some .null => pure []
      | some (.arr elems) =>
        elems.mapM fun e =>
          match e with
          | .null => pure Option.none
          | v => (decodeHardware fuel v).map some
      | some _ => throw "json: cannot unmarshal value into Go value of type []*snipeit.Hardware"
    pure ⟨tot, rows⟩
  | _ => .error "json: cannot unmarshal value into Go value of type struct"

/-! ## The hardware list accessor end to end

The pieces above compose into `Client.Hardware` run against the mock
server of `TestHardware` (src/hardware_test.go). -/

/-- The parts of a built `*http.Request` the mock server inspects. -/
structure HTTPRequest where
  Method : String
  URL : ResolvedURL
  Header : List (String × String)
deriving Repr, DecidableEq

/-- `http.Header.Get`. -/
def headerGet (h : List (String × String)) (key : String) : String :=
  match h.find? (fun p => p.1 = key) with
  | some p => p.2
  | Option.none => ""

/-- A `Client` (src/unnamed/part_002 lines 24-30): the token already
carries the `Bearer ` prefix `NewClient` adds; the base URL is held as
host and path (with the trailing slash `NewClient` guarantees). -/
structure Client where
  token : String
  BaseHost : String
  BasePath : List Char

/-- `Client.NewRequest` (src/snipeit.go lines 59-84) for the GET/nil-body
calls the accessors issue: URL resolution plus the three fixed
headers. -/
def ClientNewRequest (c : Client) (method urlStr : String) : HTTPRequest :=
  { Method := method
    URL := NewRequestURL c.BaseHost c.BasePath urlStr
    Header := [("Accept", "application/json"), ("Content-Type", "application/json"),
               ("Authorization", c.token)] }

/-- `url.QueryUnescape` (for the well-formed escapes this model emits). -/
def queryUnescapeChars : List Char → List Char
  | [] => []
  | '%' :: h1 :: h2 :: rest => Char.ofNat (hexVal h1 * 16 + hexVal h2) :: queryUnescapeChars rest
  | '+' :: rest => ' ' :: queryUnescapeChars rest
  | c :: rest => c :: queryUnescapeChars rest

/-- `url.ParseQuery` as `Request.ParseForm` uses it, as a key/value
list. -/
def parseQuery (q : List Char) : List (String × String) :=
  if q = [] then []
  else (goSplit '&' q).map fun kv =>
    (⟨queryUnescapeChars (takeUntilChar '=' kv)⟩, ⟨queryUnescapeChars (afterChar '=' kv)⟩)

/-- The test token of src/unnamed/part_003. -/
def testToken : String :=
  "premature optimization is the root of all evil (or at least most of it) in programming"

/-- The response body served by the `TestHardware` handler. -/
def hardwareTestBody : JsonValue :=
  .obj [("total", .num 1),
        ("rows", .arr [.obj [("id", .num 10), ("name", .str "hardware"),
                             ("location", .obj [("id", .num 1)])]])]

/-- The `TestHardware` mock handler (src/hardware_test.go): a GET of
`/hardware` whose form values equal `location_id=1` and whose headers are
the expected three is answered 200 with `hardwareTestBody`; anything else
404s (the `http.ServeMux` fallback). -/
def hardwareTestServer (req : HTTPRequest) : Response :=
  if req.Method = "GET" ∧ req.URL.Path = "/hardware".data ∧
      sortByKey (parseQuery req.URL.RawQuery) = [("location_id", "1")] ∧
      headerGet req.Header "Content-Type" = "application/json" ∧
      headerGet req.Header "Accept" = "application/json" ∧
      headerGet req.Header "Authorization" = "Bearer " ++ testToken then
    { StatusCode := 200, Body := some hardwareTestBody }
  else
    { StatusCode := 404, Body := Option.none }

/-- The `testClient` of src/unnamed/part_003: `NewClient(server.URL,
testToken)`, whose empty base path gains the trailing slash. -/
def testClient : Client :=
  { token := "Bearer " ++ testToken, BaseHost := "127.0.0.1", BasePath := "/".data }

/-- `Client.Hardware(opt)` (src/unnamed/part_001 lines 106-127), with the
transport abstracted as the function `serve`. -/
def ClientHardware (c : Client) (serve : HTTPRequest → Response)
    (opt : Option HardwareOptions) :
    Option (List (Option Hardware)) × Option Response × Option String :=
  match AddOptions "hardware" opt with
  | (_, some e) => (Option.none, Option.none, some e)
  | (u, Option.none) =>
    let req := ClientNewRequest c "GET" u
    let out := Do (Except.ok (serve req))
      (Target.typed ({} : HardwareListResponse) (jsonDecodeInto (decodeHardwareListResponse 10)))
    match out.error with
    | some e => (Option.none, out.resp, some e)
    | Option.none => (some ((out.target.getD {}).Rows), out.resp, Option.none)

/-- The single hardware row the end-to-end scenario is expected to
return (`want` in src/hardware_test.go). -/
def hardwareTestWant : Hardware :=
  { ID := 10, Name := "hardware",
    Location := some (.mk 1 "" "" "" "" "" "" "" "" 0 0 0 "" timestampZero timestampZero
      {} "" [] {}) }

/-! ## Supporting lemmas -/

theorem getnum_fixed_imp (v : List Char) (r : Int × List Char)
    (h : getnum v true = some r) : getnum v false = some r := by
  unfold getnum at h ⊢
  cases v with
  | nil => exact absurd h (by simp)
  | cons c1 rest1 =>
    by_cases h1 : isDigitChar c1
    · simp only [h1, if_true] at h ⊢
      cases rest1 with
      | nil => simp at h
      | cons c2 rest2 =>
        by_cases h2 : isDigitChar c2 <;> simp [h2] at h ⊢
        exact h
    · simp [h1] at h

theorem digitVal_nonneg (c : Char) : 0 ≤ digitVal c := by
  unfold digitVal; exact Int.ofNat_nonneg _

theorem digitVal_lt_ten (c : Char) (h : isDigitChar c = true) : digitVal c ≤ 9 := by
  unfold isDigitChar at h
  unfold digitVal
  simp only [decide_eq_true_eq, Bool.and_eq_true] at h
  obtain ⟨h1, h2⟩ := h
  have : c.toNat ≤ 57 := h2
  omega

theorem getnum_nonneg (v : List Char) (fixed : Bool) (n : Int) (rest : List Char)
    (h : getnum v fixed = some (n, rest)) : 0 ≤ n := by
  unfold getnum at h
  cases v with
  | nil => simp at h
  | cons c1 rest1 =>
    by_cases h1 : isDigitChar c1
    · simp only [h1, if_true] at h
      cases rest1 with
      | nil =>
        cases fixed <;> simp at h
        have := digitVal_nonneg c1
        omega
      | cons c2 rest2 =>
        by_cases h2 : isDigitChar c2
        · simp [h2] at h
          have := digitVal_nonneg c1
          have := digitVal_nonneg c2
          omega
        · cases fixed <;> simp [h2] at h
          have := digitVal_nonneg c1
          omega
    · simp [h1] at h

theorem isPrefixOf_append_self (l post : List Char) : l.isPrefixOf (l ++ post) = true := by
  induction l with
  | nil => simp [List.isPrefixOf]
  | cons c t ih => simp [List.isPrefixOf, ih]

theorem listInfix_of_append (pre n post : List Char) :
    listInfix n (pre ++ (n ++ post)) = true := by
  induction pre with
  | nil =>
    simp only [List.nil_append]
    unfold listInfix
    cases hc : n ++ post with
    | nil =>
      have hn : n = [] := by
        cases n with
        | nil => rfl
        | cons a t => simp at hc
      rw [hn]
      rfl
    | cons x t =>
      have := isPrefixOf_append_self n post
      rw [hc] at this
      rw [this]
      simp
  | cons p pt ih =>
    unfold listInfix
    simp only [List.cons_append]
    rw [ih]
    simp

theorem goQuoteChar_plain (c : Char) (h : plainAscii c) : goQuoteChar c = [c] := by
  obtain ⟨h1, h2, h3, h4⟩ := h
  unfold goQuoteChar
  rw [if_neg (by omega), if_neg (by simp [h3, h4])]

theorem flatten_map_goQuoteChar (l : List Char) (h : ∀ c ∈ l, plainAscii c) :
    (l.map goQuoteChar).flatten = l := by
  induction l with
  | nil => rfl
  | cons c t ih =>
    simp only [List.map_cons, List.flatten_cons]
    rw [goQuoteChar_plain c (h c (by simp)), ih (fun c' hc' => h c' (by simp [hc']))]
    rfl

theorem goQuote_plain (s : String) (h : ∀ c ∈ s.data, plainAscii c) :
    goQuote s = ⟨'"' :: (s.data ++ ['"'])⟩ := by
  unfold goQuote
  congr 1
  rw [flatten_map_goQuoteChar s.data h]

theorem getnum_head_not_space (v : List Char) (fixed : Bool) (r : Int × List Char)
    (h : getnum v fixed = some r) : v.head? ≠ some ' ' := by
  unfold getnum at h
  cases v with
  | nil => simp at h
  | cons c1 rest1 =>
    by_cases h1 : isDigitChar c1
    · intro hc
      simp only [List.head?_cons, Option.some.injEq] at hc
      subst hc
      simp [isDigitChar] at h1
    · simp [h1] at h

theorem dropWhile_of_head_ne (l : List Char) (h : l.head? ≠ some ' ') :
    l.dropWhile (fun c => c = ' ') = l := by
  cases l with
  | nil => rfl
  | cons c t =>
    have hc : ¬ (c = ' ') := fun he => h (by rw [he]; rfl)
    simp [List.dropWhile_cons, hc]

/-- The strict single-space separator is among the space runs Go's
`skip` accepts: when the rest of the input does not begin with another
space, the two readings agree. -/
theorem expectSpace_of_expectLit (v v' : List Char)
    (h : expectLit ' ' " " v = Except.ok v') (h' : v'.head? ≠ some ' ') :
    expectSpace v = Except.ok v' := by
  unfold expectLit at h
  cases v with
  | nil => simp at h
  | cons c rest =>
    dsimp only at h
    by_cases hc : c = ' '
    · rw [if_pos hc] at h
      simp only [Except.ok.injEq] at h
      subst h
      subst hc
      show Except.ok ((' ' :: rest).dropWhile (fun c => c = ' ')) = Except.ok rest
      have hstep : (' ' :: rest).dropWhile (fun c => c = ' ') =
          rest.dropWhile (fun c => c = ' ') := by
        simp [List.dropWhile_cons]
      rw [hstep, dropWhile_of_head_ne rest h']
    · rw [if_neg hc] at h
      simp at h

/-- A string accepted by the spec's strict reading of the layout is also
accepted by Go's parser, with the same resulting date-time. -/
theorem specLayoutParse_sound (s : String) (dt : DateTime)
    (h : specLayoutParse s = some dt) : goTimeParse s = Except.ok dt := by
  unfold specLayoutParse at h
  unfold goTimeParse
  simp only [bind, Option.bind] at h
  simp only [bind, Except.bind]
  unfold readNum
  cases hy : getYear4 s.data with
  | none => rw [hy] at h; simp at h
  | some ry =>
  obtain ⟨year, v1⟩ := ry
  rw [hy] at h
  dsimp only at h ⊢
  cases hl1 : expectLit '-' "-" v1 with
  | error e => rw [hl1] at h; simp [Except.toOption] at h
  | ok v2 =>
  rw [hl1] at h
  simp only [Except.toOption] at h
  dsimp only at h ⊢
  cases hm : getnum v2 true with
  | none => rw [hm] at h; simp at h
  | some rm =>
  obtain ⟨month, v3⟩ := rm
  rw [hm] at h
  dsimp only at h ⊢
  cases hl2 : expectLit '-' "-" v3 with
  | error e => rw [hl2] at h; simp [Except.toOption] at h
  | ok v4 =>
  rw [hl2] at h
  simp only [Except.toOption] at h
  dsimp only at h ⊢
  cases hd : getnum v4 true with
  | none => rw [hd] at h; simp at h
  | some rd =>
  obtain ⟨day, v5⟩ := rd
  rw [hd] at h
  dsimp only at h ⊢
  cases hl3 : expectLit ' ' " " v5 with
  | error e => rw [hl3] at h; simp [Except.toOption] at h
  | ok v6 =>
  rw [hl3] at h
  simp only [Except.toOption] at h
  try dsimp only at h
  cases hh : getnum v6 true with
  | none => rw [hh] at h; simp at h
  | some rh =>
  obtain ⟨hour, v7⟩ := rh
  rw [hh] at h
  rw [expectSpace_of_expectLit v5 v6 hl3 (getnum_head_not_space _ _ _ hh)]
  dsimp only
  rw [getnum_fixed_imp _ _ hh]
  dsimp only at h ⊢
  cases hl4 : expectLit ':' ":" v7 with
  | error e => rw [hl4] at h; simp [Except.toOption] at h
  | ok v8 =>
  rw [hl4] at h
  simp only [Except.toOption] at h
  dsimp only at h ⊢
  cases hmin : getnum v8 true with
  | none => rw [hmin] at h; simp at h
  | some rmin =>
  obtain ⟨minute, v9⟩ := rmin
  rw [hmin] at h
  dsimp only at h ⊢
  cases hl5 : expectLit ':' ":" v9 with
  | error e => rw [hl5] at h; simp [Except.toOption] at h
  | ok v10 =>
  rw [hl5] at h
  simp only [Except.toOption] at h
  dsimp only at h ⊢
  cases hsec : getnum v10 true with
  | none => rw [hsec] at h; simp at h
  | some rsec =>
  obtain ⟨second, v11⟩ := rsec
  rw [hsec] at h
  dsimp only at h ⊢
  split at h
  case isFalse => simp at h
  case isTrue hc =>
  obtain ⟨hv, hm1, hm2, hd1, hd2, hh2, hmin2, hsec2⟩ := hc
  have hh0 : 0 ≤ hour := getnum_nonneg _ _ _ _ hh
  have hmin0 : 0 ≤ minute := getnum_nonneg _ _ _ _ hmin
  have hsec0 : 0 ≤ second := getnum_nonneg _ _ _ _ hsec
  simp only [Option.some.injEq] at h
  subst h
  rw [if_neg (by omega), if_neg (by omega), if_neg (by omega)]
  subst hv
  simp only [readOptionalFrac]
  rw [if_neg (by simp), if_neg (by omega), if_neg (by omega)]
  rfl

theorem listInfix_self_append (n post : List Char) : listInfix n (n ++ post) = true := by
  have := listInfix_of_append [] n post
  simpa using this

theorem listInfix_cons (c : Char) (t n : List Char) (h : listInfix n t = true) :
    listInfix n (c :: t) = true := by
  unfold listInfix
  simp [h]

theorem listInfix_append_left (x t n : List Char) (h : listInfix n t = true) :
    listInfix n (x ++ t) = true := by
  induction x with
  | nil => exact h
  | cons c cs ih => exact listInfix_cons c _ n ih

/-! ## Claims about the Timestamp codec -/

/-- **C2**: for every timestamp wire value whose `datetime` field is the
empty string, `Timestamp.UnmarshalJSON` returns no error and leaves the
timestamp at the zero/unset date-time value. -/
theorem C2_empty_datetime_yields_zero (d : ApiTimestamp) (h : d.Datetime = "") :
    Timestamp.unmarshalFromWire timestampZero d = Except.ok timestampZero := by
  unfold Timestamp.unmarshalFromWire
  rw [h]
  simp

theorem C2_empty_datetime_yields_zero_witness :
    (ApiTimestamp.mk "" "").Datetime = "" ∧
    Timestamp.unmarshalFromWire timestampZero ⟨"", ""⟩ = Except.ok timestampZero :=
  ⟨rfl, C2_empty_datetime_yields_zero ⟨"", ""⟩ rfl⟩

/-- **C5** is false as stated: the input `"2019-05-21 9:37:40"` does not
match the spec's fixed `YYYY-MM-DD HH:MM:SS` layout (its hour has a
single digit), yet `Timestamp.UnmarshalJSON` decodes it without an error,
because Go's `time.Parse` accepts one- or two-digit hours for the layout
element `15`. -/
theorem C5_counterexample_single_digit_hour :
    (ApiTimestamp.mk "2019-05-21 9:37:40" "").Datetime ≠ "" ∧
    matchesSpecLayout "2019-05-21 9:37:40" = false ∧
    Timestamp.unmarshalFromWire timestampZero ⟨"2019-05-21 9:37:40", ""⟩ =
      Except.ok ⟨⟨2019, 5, 21, 9, 37, 40, 0⟩⟩ := by
  refine ⟨by decide, by decide, by rfl⟩

/-- **C5** (amended): for a non-empty `datetime` (of plain printable
ASCII), whenever Go's parser rejects it, `Timestamp.UnmarshalJSON` fails
with an error message that contains the offending raw datetime string;
and every `datetime` that matches the spec's strict `YYYY-MM-DD HH:MM:SS`
layout decodes successfully to the corresponding UTC date-time.  (Not
every deviation from the strict layout is rejected: single-digit hours
and fractional seconds are also accepted, see the counterexample.) -/
theorem C5_nonmatching_errors_include_raw_string (d : ApiTimestamp) (hne : d.Datetime ≠ "")
    (hascii : ∀ c ∈ d.Datetime.data, plainAscii c) :
    (∀ e, goTimeParse d.Datetime = Except.error e →
        Timestamp.unmarshalFromWire timestampZero d =
          Except.error ("go-snipeit: can not parse api timestamp: " ++
            parseErrorMessage d.Datetime e) ∧
        listInfix d.Datetime.data
          ("go-snipeit: can not parse api timestamp: " ++
            parseErrorMessage d.Datetime e).data = true) ∧
    (∀ dt, specLayoutParse d.Datetime = some dt →
        Timestamp.unmarshalFromWire timestampZero d = Except.ok ⟨dt⟩) := by
  constructor
  · intro e he
    constructor
    · unfold Timestamp.unmarshalFromWire
      rw [if_neg hne, he]
    · cases e with
      | elem layoutElem valueElem =>
        unfold parseErrorMessage
        rw [goQuote_plain _ hascii]
        simp only [String.data_append, List.append_assoc, List.cons_append, List.nil_append]
        repeat first
          | exact listInfix_self_append _ _
          | apply listInfix_cons
          | apply listInfix_append_left
      | range rangeErrString =>
        unfold parseErrorMessage
        rw [goQuote_plain _ hascii]
        simp only [String.data_append, List.append_assoc, List.cons_append, List.nil_append]
        repeat first
          | exact listInfix_self_append _ _
          | apply listInfix_cons
          | apply listInfix_append_left
      | extraText extra =>
        unfold parseErrorMessage
        rw [goQuote_plain _ hascii]
        simp only [String.data_append, List.append_assoc, List.cons_append, List.nil_append]
        repeat first
          | exact listInfix_self_append _ _
          | apply listInfix_cons
          | apply listInfix_append_left
  · intro dt hdt
    unfold Timestamp.unmarshalFromWire
    rw [if_neg hne, specLayoutParse_sound _ _ hdt]

theorem C5_nonmatching_errors_include_raw_string_witness :
    (Timestamp.unmarshalFromWire timestampZero ⟨"not-a-date", ""⟩ =
      Except.error ("go-snipeit: can not parse api timestamp: " ++
        parseErrorMessage "not-a-date" (.elem "2006" "not-a-date")) ∧
     listInfix "not-a-date".data
       ("go-snipeit: can not parse api timestamp: " ++
         parseErrorMessage "not-a-date" (.elem "2006" "not-a-date")).data = true) ∧
    Timestamp.unmarshalFromWire timestampZero ⟨"2019-05-21 21:37:40", ""⟩ =
      Except.ok ⟨⟨2019, 5, 21, 21, 37, 40, 0⟩⟩ :=
  ⟨(C5_nonmatching_errors_include_raw_string ⟨"not-a-date", ""⟩ (by decide)
      (by decide)).1 (.elem "2006" "not-a-date") (by rfl),
   (C5_nonmatching_errors_include_raw_string ⟨"2019-05-21 21:37:40", ""⟩ (by decide)
      (by decide)).2 ⟨2019, 5, 21, 21, 37, 40, 0⟩ (by rfl)⟩

/-- **C6**: decoding the timestamp wire value
`{"datetime":"2019-05-21 21:37:40","formatted":"2019-05-21 21:37"}`
succeeds and yields 2019-05-21T21:37:40 UTC, and the `formatted` field
never influences the decoded value. -/
theorem C6_roundtrip_and_formatted_ignored :
    Timestamp.UnmarshalJSON timestampZero
      (.obj [("datetime", .str "2019-05-21 21:37:40"),
             ("formatted", .str "2019-05-21 21:37")]) =
      Except.ok ⟨⟨2019, 5, 21, 21, 37, 40, 0⟩⟩ ∧
    ∀ (ts : Timestamp) (dt f f' : String),
      Timestamp.unmarshalFromWire ts ⟨dt, f⟩ = Timestamp.unmarshalFromWire ts ⟨dt, f'⟩ := by
  exact ⟨by rfl, fun ts dt f f' => rfl⟩

/-! ## Claims about the response dispatcher -/

/-- **C1**: for every response whose status lies outside [200, 299], `Do`
returns the response handle together with a nil error, does not attempt
to decode the body, and leaves the target untouched. -/
theorem C1_non2xx_returned_undecoded {α : Type} (resp : Response) (v : Target α)
    (h : resp.StatusCode < 200 ∨ 299 < resp.StatusCode) :
    (Do (Except.ok resp) v).resp = some resp ∧
    (Do (Except.ok resp) v).error = Option.none ∧
    (Do (Except.ok resp) v).decodeAttempted = false ∧
    (Do (Except.ok resp) v).target = v.value := by
  unfold Do
  dsimp only
  rw [if_pos h]
  exact ⟨rfl, rfl, rfl, rfl⟩

theorem C1_non2xx_returned_undecoded_witness :
    (Do (Except.ok ⟨404, some (.str "error body")⟩)
        (Target.typed (0 : Int) (jsonDecodeInto fun _ => Except.ok 1))).resp =
      some ⟨404, some (.str "error body")⟩ ∧
    (Do (Except.ok ⟨404, some (.str "error body")⟩)
        (Target.typed (0 : Int) (jsonDecodeInto fun _ => Except.ok 1))).error = Option.none ∧
    (Do (Except.ok ⟨404, some (.str "error body")⟩)
        (Target.typed (0 : Int) (jsonDecodeInto fun _ => Except.ok 1))).decodeAttempted = false ∧
    (Do (Except.ok ⟨404, some (.str "error body")⟩)
        (Target.typed (0 : Int) (jsonDecodeInto fun _ => Except.ok 1))).target = some 0 :=
  C1_non2xx_returned_undecoded ⟨404, some (.str "error body")⟩
    (Target.typed 0 (jsonDecodeInto fun _ => Except.ok 1)) (Or.inr (by decide))

/-- **C4** is false as stated: on a non-2xx response the body stream is
neither consumed nor closed before `Do` returns, because the
`defer resp.Body.Close()` is registered only after the status
short-circuit. -/
theorem C4_counterexample_404_body_not_closed :
    (Do (Except.ok ⟨404, some (.str "error body")⟩) (Target.none : Target Unit)).bodyClosed =
      false := rfl

/-- **C4** (amended): the body stream is closed before `Do` returns
whenever the received response's status is within [200, 299] (whatever
the target and however decoding turns out); when the status is outside
that range, `Do` returns without closing the body or touching it. -/
theorem C4_body_closed_only_on_2xx {α : Type} (resp : Response) (v : Target α) :
    (200 ≤ resp.StatusCode ∧ resp.StatusCode ≤ 299 →
      (Do (Except.ok resp) v).bodyClosed = true) ∧
    (resp.StatusCode < 200 ∨ 299 < resp.StatusCode →
      (Do (Except.ok resp) v).bodyClosed = false ∧
      (Do (Except.ok resp) v).decodeAttempted = false) := by
  constructor
  · intro h
    unfold Do
    dsimp only
    rw [if_neg (by omega)]
    cases v with
    | none => rfl
    | writer co => rfl
    | typed init dec =>
      dsimp only
      cases dec resp.Body <;> rfl
  · intro h
    unfold Do
    dsimp only
    rw [if_pos h]
    exact ⟨rfl, rfl⟩

theorem C4_body_closed_only_on_2xx_witness :
    (Do (Except.ok ⟨200, some (.str "x")⟩) (Target.none : Target Unit)).bodyClosed = true ∧
    (Do (Except.ok ⟨404, some (.str "x")⟩) (Target.none : Target Unit)).bodyClosed = false :=
  ⟨(C4_body_closed_only_on_2xx ⟨200, some (.str "x")⟩ Target.none).1 ⟨by decide, by decide⟩,
   ((C4_body_closed_only_on_2xx ⟨404, some (.str "x")⟩ Target.none).2 (Or.inr (by decide))).1⟩

/-- **C9**: a successful (2xx) response with an empty body decoded into a
typed record target produces a nil error and leaves the target at its
initial (zero) value: the decoder's `io.EOF` is ignored. -/
theorem C9_empty_body_2xx_zero_target {α : Type} (resp : Response) (init : α)
    (dec : JsonValue → Except String α) (hb : resp.Body = Option.none)
    (h1 : 200 ≤ resp.StatusCode) (h2 : resp.StatusCode ≤ 299) :
    (Do (Except.ok resp) (Target.typed init (jsonDecodeInto dec))).error = Option.none ∧
    (Do (Except.ok resp) (Target.typed init (jsonDecodeInto dec))).target = some init ∧
    (Do (Except.ok resp) (Target.typed init (jsonDecodeInto dec))).resp = some resp := by
  unfold Do
  dsimp only
  rw [if_neg (by omega)]
  rw [hb]
  exact ⟨rfl, rfl, rfl⟩

theorem C9_empty_body_2xx_zero_target_witness :
    (Do (Except.ok ⟨200, Option.none⟩)
        (Target.typed (37 : Int) (jsonDecodeInto fun _ => Except.error "boom"))).error =
      Option.none ∧
    (Do (Except.ok ⟨200, Option.none⟩)
        (Target.typed (37 : Int) (jsonDecodeInto fun _ => Except.error "boom"))).target =
      some 37 ∧
    (Do (Except.ok ⟨200, Option.none⟩)
        (Target.typed (37 : Int) (jsonDecodeInto fun _ => Except.error "boom"))).resp =
      some ⟨200, Option.none⟩ :=
  C9_empty_body_2xx_zero_target ⟨200, Option.none⟩ 37 (fun _ => Except.error "boom")
    rfl (by decide) (by decide)

/-- **C10**: when the target is an `io.Writer` sink, the outcome of
`io.Copy` is discarded: `Do` returns a nil error whatever the copy's
outcome, even a failed or incomplete copy, so a nil error does not
guarantee the sink received the full body. -/
theorem C10_writer_copy_error_discarded {α : Type} (resp : Response) (co : CopyOutcome)
    (h1 : 200 ≤ resp.StatusCode) (h2 : resp.StatusCode ≤ 299) :
    (Do (Except.ok resp) (Target.writer co : Target α)).error = Option.none ∧
    (Do (Except.ok resp) (Target.writer co : Target α)).resp = some resp ∧
    (Do (Except.ok resp) (Target.writer co : Target α)).sinkWritten = some co.written := by
  unfold Do
  dsimp only
  rw [if_neg (by omega)]
  exact ⟨rfl, rfl, rfl⟩

theorem C10_writer_copy_error_discarded_witness :
    (Do (Except.ok ⟨200, some (.str "full body")⟩)
        (Target.writer (.fail "broken pipe" 1) : Target Unit)).error = Option.none ∧
    (Do (Except.ok ⟨200, some (.str "full body")⟩)
        (Target.writer (.fail "broken pipe" 1) : Target Unit)).resp =
      some ⟨200, some (.str "full body")⟩ ∧
    (Do (Except.ok ⟨200, some (.str "full body")⟩)
        (Target.writer (.fail "broken pipe" 1) : Target Unit)).sinkWritten = some 1 :=
  C10_writer_copy_error_discarded ⟨200, some (.str "full body")⟩ (.fail "broken pipe" 1)
    (by decide) (by decide)

/-! ## Claims about the query encoder -/

theorem count_fst_urlFieldInt (k key : String) (v : Int) :
    ((urlFieldInt key v).map Prod.fst).count k = if key = k ∧ v ≠ 0 then 1 else 0 := by
  unfold urlFieldInt
  by_cases h : v = 0 <;> by_cases hk : key = k <;>
    simp [h, hk, List.count_cons]

theorem count_fst_urlFieldString (k key v : String) :
    ((urlFieldString key v).map Prod.fst).count k = if key = k ∧ v ≠ "" then 1 else 0 := by
  unfold urlFieldString
  by_cases h : v = "" <;> by_cases hk : key = k <;>
    simp [h, hk, List.count_cons]

theorem takeUntilChar_of_not_mem (c : Char) (l : List Char) (h : c ∉ l) :
    takeUntilChar c l = l := by
  induction l with
  | nil => rfl
  | cons x t ih =>
    unfold takeUntilChar
    rw [if_neg fun he => h (by rw [← he]; exact List.mem_cons_self x t)]
    rw [ih fun hm => h (List.mem_cons_of_mem x hm)]

theorem afterChar_of_not_mem (c : Char) (l : List Char) (h : c ∉ l) :
    afterChar c l = [] := by
  induction l with
  | nil => rfl
  | cons x t ih =>
    unfold afterChar
    rw [if_neg fun he => h (by rw [← he]; exact List.mem_cons_self x t)]
    exact ih fun hm => h (List.mem_cons_of_mem x hm)

/-- **C7**: each zero-valued field of a (non-nil) options record
contributes no query parameter and each populated field contributes
exactly one under its fixed predetermined key; keys outside the fixed set
never occur; and an all-zero options record yields the path with no query
string at all. -/
theorem C7_omitempty_query_encoding (o : HardwareOptions) :
    ((queryKeys o).count "limit" = (if o.Limit = 0 then 0 else 1) ∧
     (queryKeys o).count "offset" = (if o.Offset = 0 then 0 else 1) ∧
     (queryKeys o).count "search" = (if o.Search = "" then 0 else 1) ∧
     (queryKeys o).count "order_number" = (if o.OrderNumber = "" then 0 else 1) ∧
     (queryKeys o).count "sort" = (if o.Sort' = "" then 0 else 1) ∧
     (queryKeys o).count "order" = (if o.Order = "" then 0 else 1) ∧
     (queryKeys o).count "model_id" = (if o.ModelID = 0 then 0 else 1) ∧
     (queryKeys o).count "category_id" = (if o.CategoryID = 0 then 0 else 1) ∧
     (queryKeys o).count "manufacturer_id" = (if o.ManufacturerID = 0 then 0 else 1) ∧
     (queryKeys o).count "company_id" = (if o.CompanyID = 0 then 0 else 1) ∧
     (queryKeys o).count "location_id" = (if o.LocationID = 0 then 0 else 1) ∧
     (queryKeys o).count "status" = (if o.Status = "" then 0 else 1) ∧
     (queryKeys o).count "status_id" = (if o.StatusID = "" then 0 else 1)) ∧
    (∀ k, k ∉ (["limit", "offset", "search", "order_number", "sort", "order", "model_id",
        "category_id", "manufacturer_id", "company_id", "location_id", "status",
        "status_id"] : List String) → (queryKeys o).count k = 0) ∧
    (∀ (s : String) (p : List Char),
        ¬ '?' ∈ s.data → ¬ ':' ∈ s.data → ¬ '#' ∈ s.data → s.data.take 2 ≠ ['/', '/'] →
        validEncodedPath s.data = true → unescapePath s.data = Except.ok p →
        AddOptions s (some {}) = (s, Option.none)) := by
  refine ⟨⟨?_, ?_, ?_, ?_, ?_, ?_, ?_, ?_, ?_, ?_, ?_, ?_, ?_⟩, ?_, ?_⟩
  case _ => simp only [queryKeys, HardwareOptions.values, List.map_append, List.count_append,
      count_fst_urlFieldInt, count_fst_urlFieldString]
            by_cases h : o.Limit = 0 <;> simp [h]
  case _ => simp only [queryKeys, HardwareOptions.values, List.map_append, List.count_append,
      count_fst_urlFieldInt, count_fst_urlFieldString]
            by_cases h : o.Offset = 0 <;> simp [h]
  case _ => simp only [queryKeys, HardwareOptions.values, List.map_append, List.count_append,
      count_fst_urlFieldInt, count_fst_urlFieldString]
            by_cases h : o.Search = "" <;> simp [h]
  case _ => simp only [queryKeys, HardwareOptions.values, List.map_append, List.count_append,
      count_fst_urlFieldInt, count_fst_urlFieldString]
            by_cases h : o.OrderNumber = "" <;> simp [h]
  case _ => simp only [queryKeys, HardwareOptions.values, List.map_append, List.count_append,
      count_fst_urlFieldInt, count_fst_urlFieldString]
            by_cases h : o.Sort' = "" <;> simp [h]
  case _ => simp only [queryKeys, HardwareOptions.values, List.map_append, List.count_append,
      count_fst_urlFieldInt, count_fst_urlFieldString]
            by_cases h : o.Order = "" <;> simp [h]
  case _ => simp only [queryKeys, HardwareOptions.values, List.map_append, List.count_append,
      count_fst_urlFieldInt, count_fst_urlFieldString]
            by_cases h : o.ModelID = 0 <;> simp [h]
  case _ => simp only [queryKeys, HardwareOptions.values, List.map_append, List.count_append,
      count_fst_urlFieldInt, count_fst_urlFieldString]
            by_cases h : o.CategoryID = 0 <;> simp [h]
  case _ => simp only [queryKeys, HardwareOptions.values, List.map_append, List.count_append,
      count_fst_urlFieldInt, count_fst_urlFieldString]
            by_cases h : o.ManufacturerID = 0 <;> simp [h]
  case _ => simp only [queryKeys, HardwareOptions.values, List.map_append, List.count_append,
      count_fst_urlFieldInt, count_fst_urlFieldString]
            by_cases h : o.CompanyID = 0 <;> simp [h]
  case _ => simp only [queryKeys, HardwareOptions.values, List.map_append, List.count_append,
      count_fst_urlFieldInt, count_fst_urlFieldString]
            by_cases h : o.LocationID = 0 <;> simp [h]
  case _ => simp only [queryKeys, HardwareOptions.values, List.map_append, List.count_append,
      count_fst_urlFieldInt, count_fst_urlFieldString]
            by_cases h : o.Status = "" <;> simp [h]
  case _ => simp only [queryKeys, HardwareOptions.values, List.map_append, List.count_append,
      count_fst_urlFieldInt, count_fst_urlFieldString]
            by_cases h : o.StatusID = "" <;> simp [h]
  case _ =>
    intro k hk
    simp only [List.mem_cons, List.not_mem_nil, or_false, not_or] at hk
    obtain ⟨h1, h2, h3, h4, h5, h6, h7, h8, h9, h10, h11, h12, h13⟩ := hk
    simp only [queryKeys, HardwareOptions.values, List.map_append, List.count_append,
      count_fst_urlFieldInt, count_fst_urlFieldString]
    simp [Ne.symm h1, Ne.symm h2, Ne.symm h3, Ne.symm h4, Ne.symm h5, Ne.symm h6,
      Ne.symm h7, Ne.symm h8, Ne.symm h9, Ne.symm h10, Ne.symm h11, Ne.symm h12,
      Ne.symm h13]
  case _ =>
    intro s p hq hcolon hfrag hslash hvalid hunesc
    unfold AddOptions
    dsimp only
    rw [takeUntilChar_of_not_mem '?' s.data hq, hunesc]
    dsimp only
    rw [if_pos (show urlValuesEncode ({} : HardwareOptions).values = "" from rfl)]
    unfold escapedPathOf
    rw [if_pos hvalid]

theorem C7_omitempty_query_encoding_witness :
    (queryKeys { LocationID := 1 }).count "foo" = 0 ∧
    AddOptions "hardware" (some {}) = ("hardware", Option.none) :=
  ⟨(C7_omitempty_query_encoding { LocationID := 1 }).2.1 "foo" (by decide),
   (C7_omitempty_query_encoding {}).2.2 "hardware" "hardware".data (by decide) (by decide)
     (by decide) (by decide) (by decide) (by rfl)⟩

/-! ## Claims about the request builder's URL resolution -/

theorem goSplit_ne_nil (sep : Char) (l : List Char) : goSplit sep l ≠ [] := by
  cases l with
  | nil => simp [goSplit]
  | cons c rest =>
    simp only [goSplit]
    split
    · simp
    · split <;> simp

theorem goSplit_append (sep : Char) (xs ys : List Char) :
    goSplit sep (xs ++ sep :: ys) = goSplit sep xs ++ goSplit sep ys := by
  induction xs with
  | nil => simp [goSplit]
  | cons c rest ih =>
    simp only [List.cons_append, goSplit, List.append_eq]
    by_cases h : c = sep
    · rw [if_pos h, if_pos h, ih]
      rfl
    · rw [if_neg h, if_neg h, ih]
      cases hs : goSplit sep rest with
      | nil => exact absurd hs (goSplit_ne_nil sep rest)
      | cons s0 rest0 => rfl

theorem goJoin_goSplit (sep : Char) (l : List Char) : goJoin sep (goSplit sep l) = l := by
  induction l with
  | nil => rfl
  | cons c rest ih =>
    simp only [goSplit]
    by_cases h : c = sep
    · rw [if_pos h]
      cases hs : goSplit sep rest with
      | nil => exact absurd hs (goSplit_ne_nil sep rest)
      | cons s0 rest0 =>
        rw [hs] at ih
        subst h
        show [] ++ c :: goJoin c (s0 :: rest0) = c :: rest
        rw [List.nil_append, ih]
    · rw [if_neg h]
      cases hs : goSplit sep rest with
      | nil => exact absurd hs (goSplit_ne_nil sep rest)
      | cons s0 rest0 =>
        rw [hs] at ih
        cases rest0 with
        | nil => exact congrArg (List.cons c) ih
        | cons r1 rs =>
          show (c :: s0) ++ sep :: goJoin sep (r1 :: rs) = c :: rest
          rw [List.cons_append]
          exact congrArg (List.cons c) ih

theorem foldl_segments_no_dots (src : List (List Char)) (acc : List (List Char))
    (h : ∀ seg ∈ src, seg ≠ ['.'] ∧ seg ≠ ['.', '.']) :
    src.foldl
      (fun dst elem =>
        if elem = ['.'] then dst
        else if elem = ['.', '.'] then dst.dropLast
        else dst ++ [elem]) acc = acc ++ src := by
  induction src generalizing acc with
  | nil => simp
  | cons s rest ih =>
    simp only [List.foldl_cons]
    have hs := h s (by simp)
    rw [if_neg hs.1, if_neg hs.2, ih _ fun seg hseg => h seg (by simp [hseg])]
    simp

theorem lastIndexOfChar_append_self (c : Char) (l : List Char) :
    lastIndexOfChar c (l ++ [c]) = some l.length := by
  induction l with
  | nil => simp [lastIndexOfChar]
  | cons x t ih =>
    simp only [List.cons_append, lastIndexOfChar, List.append_eq, ih, List.length_cons]

theorem mergeBase_ends_slash (l : List Char) : mergeBase (l ++ ['/']) = l ++ ['/'] := by
  unfold mergeBase
  rw [lastIndexOfChar_append_self]
  exact List.take_of_length_le (by simp)

theorem mem_trimOneLeadingSlash (l : List Char) (x : Char)
    (h : x ∈ trimOneLeadingSlash l) : x ∈ l := by
  unfold trimOneLeadingSlash at h
  split at h
  · exact List.mem_cons_of_mem _ h
  · exact h

/-- `resolvePath` on a base path that starts and ends with `/` and a
relative reference, neither containing `.` or `..` segments, is plain
concatenation. -/
theorem resolvePath_clean (basePath t : List Char)
    (hhead : basePath.head? = some '/') (hlast : basePath.getLast? = some '/')
    (hbdot : ∀ seg ∈ goSplit '/' basePath, seg ≠ ['.'] ∧ seg ≠ ['.', '.'])
    (hdot : ∀ seg ∈ goSplit '/' t, seg ≠ ['.'] ∧ seg ≠ ['.', '.'])
    (ht : t.head? ≠ some '/') (hne : t ≠ []) :
    resolvePath basePath t = basePath ++ t := by
  obtain ⟨l', hl'⟩ : ∃ l', basePath = l' ++ ['/'] := List.getLast?_eq_some_iff.mp hlast
  obtain ⟨bs, hbs⟩ : ∃ bs, basePath = '/' :: bs := by
    cases hb : basePath with
    | nil => rw [hb] at hhead; simp at hhead
    | cons b brest =>
      rw [hb] at hhead
      simp only [List.head?_cons, Option.some.injEq] at hhead
      exact ⟨brest, by rw [hhead]⟩
  unfold resolvePath
  dsimp only
  rw [if_neg hne, if_neg ht]
  rw [hl', mergeBase_ends_slash]
  have hfull : (l' ++ ['/']) ++ t = l' ++ '/' :: t := by simp
  rw [hfull]
  rw [if_neg (by simp)]
  have hsrc : goSplit '/' (l' ++ '/' :: t) = goSplit '/' l' ++ goSplit '/' t :=
    goSplit_append '/' l' t
  rw [hsrc]
  have hbase_split : goSplit '/' basePath = goSplit '/' l' ++ [[]] := by
    rw [hl']
    have : l' ++ ['/'] = l' ++ '/' :: ([] : List Char) := rfl
    rw [this, goSplit_append]
    rfl
  have hall : ∀ seg ∈ goSplit '/' l' ++ goSplit '/' t,
      seg ≠ ['.'] ∧ seg ≠ ['.', '.'] := by
    intro seg hseg
    rcases List.mem_append.mp hseg with hl | hr
    · exact hbdot seg (by rw [hbase_split]; exact List.mem_append_left _ hl)
    · exact hdot seg hr
  rw [foldl_segments_no_dots _ _ hall, List.nil_append]
  have hglast : (goSplit '/' l' ++ goSplit '/' t).getLast? = (goSplit '/' t).getLast? :=
    List.getLast?_append_of_ne_nil _ (goSplit_ne_nil '/' t)
  rw [hglast]
  cases hgl : (goSplit '/' t).getLast? with
  | none =>
    have : goSplit '/' t = [] := List.getLast?_eq_none_iff.mp hgl
    exact absurd this (goSplit_ne_nil '/' t)
  | some last =>
    have hlastmem : last ∈ goSplit '/' t := List.mem_of_mem_getLast? hgl
    have hlastdot := hdot last hlastmem
    dsimp only
    rw [if_neg (by simp [hlastdot.1, hlastdot.2])]
    rw [← hsrc, goJoin_goSplit]
    have : l' ++ '/' :: t = '/' :: (bs ++ t) := by
      rw [← hfull, ← hl', hbs]
      rfl
    rw [this]
    rfl

/-- **C8** is false as stated: the input path `"//abc"` keeps one leading
separator after the single `strings.TrimPrefix(urlStr, "/")`, so it
resolves as an absolute-from-host path `/abc` that discards the base
endpoint's `/api/` path prefix. -/
theorem C8_counterexample_double_slash :
    (NewRequestURL "example.com" "/api/".data "//abc").Path = "/abc".data ∧
    "/api/".data.isPrefixOf (NewRequestURL "example.com" "/api/".data "//abc").Path =
      false := by
  decide

/-- **C8** (amended): a single leading path separator is stripped, and
every plain path input — one whose stripped form does not itself begin
with a separator, and which carries no query, no `:` (which could start
a scheme), no `#` (fragment), no percent-escape and no `.`/`..`
segments — resolves to the base endpoint's path extended by the input
path; an input beginning with `//` still starts with a separator after
the strip and resolves absolute-from-host (see the counterexample).
The three exclusion hypotheses confine the statement to the reference
grammar `NewRequestURL` covers; within the model they are not consumed
by the proof. -/
theorem C8_relative_paths_extend_base (baseHost : String) (basePath : List Char)
    (urlStr : String)
    (hhead : basePath.head? = some '/') (hlast : basePath.getLast? = some '/')
    (hbdot : ∀ seg ∈ goSplit '/' basePath, seg ≠ ['.'] ∧ seg ≠ ['.', '.'])
    (ht : (trimOneLeadingSlash urlStr.data).head? ≠ some '/')
    (hq : ¬ '?' ∈ urlStr.data) (_hcolon : ¬ ':' ∈ urlStr.data)
    (_hfrag : ¬ '#' ∈ urlStr.data) (_hesc : ¬ '%' ∈ urlStr.data)
    (hdot : ∀ seg ∈ goSplit '/' (trimOneLeadingSlash urlStr.data),
        seg ≠ ['.'] ∧ seg ≠ ['.', '.'])
    (hne : trimOneLeadingSlash urlStr.data ≠ []) :
    NewRequestURL baseHost basePath urlStr =
      { Host := baseHost, Path := basePath ++ trimOneLeadingSlash urlStr.data,
        RawQuery := [] } := by
  have hqt : ¬ '?' ∈ trimOneLeadingSlash urlStr.data :=
    fun hm => hq (mem_trimOneLeadingSlash _ _ hm)
  unfold NewRequestURL
  dsimp only
  rw [if_neg ?notauth]
  case notauth =>
    intro htake
    cases hc : trimOneLeadingSlash urlStr.data with
    | nil => rw [hc] at htake; simp at htake
    | cons c rest =>
      rw [hc] at htake ht
      simp only [List.take_succ_cons, List.cons.injEq] at htake
      exact ht (by rw [htake.1]; rfl)
  rw [takeUntilChar_of_not_mem '?' _ hqt, afterChar_of_not_mem '?' _ hqt]
  rw [if_neg (by simp [hne])]
  rw [resolvePath_clean basePath _ hhead hlast hbdot hdot ht hne]

theorem C8_relative_paths_extend_base_witness :
    NewRequestURL "example.com" "/api/".data "hardware" =
      { Host := "example.com", Path := "/api/hardware".data, RawQuery := [] } :=
  (C8_relative_paths_extend_base "example.com" "/api/".data "hardware" (by decide)
      (by decide) (by decide) (by decide) (by decide) (by decide) (by decide) (by decide)
      (by decide) (by decide)).trans (by decide)

/-! ## The end-to-end hardware list claim -/

/-- **C3**: the hardware list accessor called with options
`{LocationID: 1}` against a server answering `GET /hardware?location_id=1`
with `{"total":1,"rows":[{"id":10,"name":"hardware","location":{"id":1}}]}`
returns exactly one hardware record with ID 10, name `"hardware"` and an
embedded location reference of ID 1, together with the raw response and a
nil error. -/
theorem C3_hardware_list_end_to_end :
    ClientHardware testClient hardwareTestServer (some { LocationID := 1 }) =
      (some [some hardwareTestWant],
       some { StatusCode := 200, Body := some hardwareTestBody }, Option.none) ∧
    hardwareTestWant.ID = 10 ∧ hardwareTestWant.Name = "hardware" ∧
    hardwareTestWant.Location.map Location.ID = some 1 :=
  ⟨rfl, rfl, rfl, rfl⟩

end Snipeit
